import Mathlib

/-
  Verification of the typed-environment schema parsing and validation engine.

  The definitions below are a shallow embedding of the engine found in
  src/index.ts (the current snapshot of the TypedEnv class: parseLine,
  cleanupValue, isQuoted, isBooleanValue, convertToBoolean,
  validateRequiredField, parseString, parseNumber, parseBoolean,
  parseAndSetValue, validateEnumChoices, validateAdvancedConstraints and the
  parse loop), together with the error classes of src/utils/envError.ts.

  JavaScript runtime values that can appear in the parsed environment are
  modelled by the type JSValue; JavaScript numbers are modelled by JSNum
  (finite rationals, the two infinities, and NaN).  The built-in conversion
  Number(string) is not reimplemented: functions that use it take it as an
  explicit parameter named toNum, so every theorem below is quantified over
  the possible behaviours of that conversion.  String.prototype.trim,
  String.prototype.toLowerCase, startsWith, endsWith and slice are modelled
  explicitly on the character list of the string (ASCII case mapping, the
  core whitespace characters), mirroring how the engine uses them.
-/

namespace TypedEnv

/-- Model of a JavaScript number: a finite rational, one of the two
infinities, or NaN. -/
inductive JSNum where
  | fin (q : ℚ)
  | posInf
  | negInf
  | nan
  deriving DecidableEq, Repr

/-- A JavaScript primitive value as it can appear in a schema field
(defaults, choices): string, number or boolean.  This mirrors the
TypeScript constraint T extends string, number or boolean. -/
inductive Prim where
  | str (s : String)
  | num (n : JSNum)
  | bool (b : Bool)
  deriving DecidableEq, Repr

/-- A value stored in the parsed environment map:
string, number, boolean or undefined. -/
inductive JSValue where
  | str (s : String)
  | num (n : JSNum)
  | bool (b : Bool)
  | undefined
  deriving DecidableEq, Repr

def Prim.toJS : Prim → JSValue
  | .str s => .str s
  | .num n => .num n
  | .bool b => .bool b

/-- JavaScript strict equality on our value model.  NaN is not strictly
equal to itself; values of different runtime types are never equal. -/
def jsEq : JSValue → JSValue → Bool
  | .str a, .str b => a == b
  | .num (.fin a), .num (.fin b) => a == b
  | .num .posInf, .num .posInf => true
  | .num .negInf, .num .negInf => true
  | .bool a, .bool b => a == b
  | .undefined, .undefined => true
  | _, _ => false

/-- JavaScript truthiness of a value: the empty string, plus or minus zero,
NaN, false and undefined are falsy. -/
def jsTruthy : JSValue → Bool
  | .str s => !(s == "")
  | .num (.fin q) => !(q == 0)
  | .num .nan => false
  | .num .posInf => true
  | .num .negInf => true
  | .bool b => b
  | .undefined => false

/-- JavaScript comparison a < b on numbers: false whenever either side is
NaN, otherwise the expected order with the infinities at the ends. -/
def jsLt : JSNum → JSNum → Bool
  | .nan, _ => false
  | _, .nan => false
  | .fin a, .fin b => a < b
  | .fin _, .posInf => true
  | .fin _, .negInf => false
  | .posInf, _ => false
  | .negInf, .negInf => false
  | .negInf, _ => true

/-- Test value < bound for an optional bound (absent bound never triggers). -/
def ltOpt (v : JSNum) (bound : Option JSNum) : Bool :=
  match bound with
  | some b => jsLt v b
  | none => false

/-- Test value > bound for an optional bound (absent bound never triggers). -/
def gtOpt (v : JSNum) (bound : Option JSNum) : Bool :=
  match bound with
  | some b => jsLt b v
  | none => false

/-- The global isNaN of JavaScript applied to a defined value, given the
behaviour toNum of the Number(string) conversion (isNaN coerces its
argument with ToNumber first). -/
def jsIsNaN (toNum : String → JSNum) : JSValue → Bool
  | .num n => n == .nan
  | .str s => toNum s == .nan
  | .bool _ => false
  | .undefined => true

/- ### String model -/

/-- Whitespace characters recognised by the trim model. -/
def isWsChar (c : Char) : Bool :=
  c == ' ' || c == '\t' || c == '\n' || c == '\r'

/-- Remove leading and trailing whitespace from a character list. -/
def trimChars (l : List Char) : List Char :=
  ((l.dropWhile isWsChar).reverse.dropWhile isWsChar).reverse

/-- Model of String.prototype.trim. -/
def jsTrim (s : String) : String :=
  ⟨trimChars s.data⟩

/-- ASCII lower-casing of one character, as Char.toLower does. -/
def lowerChar (c : Char) : Char :=
  if c.toNat ≥ 65 ∧ c.toNat ≤ 90 then Char.ofNat (c.toNat + 32) else c

/-- Model of String.prototype.toLowerCase (ASCII range). -/
def jsToLower (s : String) : String :=
  ⟨s.data.map lowerChar⟩

/-- Model of String.prototype.startsWith. -/
def jsStartsWith (s p : String) : Bool :=
  p.data.isPrefixOf s.data

/-- Model of String.prototype.endsWith. -/
def jsEndsWith (s p : String) : Bool :=
  p.data.isSuffixOf s.data

/-- The single-quote character. -/
def squote : Char := Char.ofNat 39

/-- The one-character string holding a single quote. -/
def squoteStr : String := ⟨[squote]⟩

/-- The one-character string holding a double quote. -/
def dquoteStr : String := ⟨['\x22']⟩

/- ### Errors (src/utils/envError.ts) -/

/-- The error classes thrown by the engine, with the data their constructors
receive.  InvalidPatternError also receives the pattern object itself; the
pattern is a regular-expression test function in the embedding, so only the
key and the offending value are recorded here. -/
inductive EnvError where
  | missingRequiredField (key : String)
  | invalidType (key expected : String) (received : Option String)
  | invalidBoolean (key received : String)
  | invalidEnum (key : String) (allowed : List Prim) (received : JSValue)
  | unsupportedType (t : String)
  | invalidStringLength (key value : String) (min max : Option JSNum)
  | invalidPattern (key value : String)
  | invalidNumberRange (key : String) (value : JSNum) (min max : Option JSNum)
  | customValidation (key : String) (value : JSValue)
  | invalidJSON (key value err : String)
  deriving DecidableEq, Repr

/- ### Schema field descriptors (src/types/index.ts, BaseField) -/

/-- The runtime content of a field's type tag.  The TypeScript type only
admits the three literal strings, but at run time any other value reaches
the default branch of parseAndSetValue; that case is modelled by the
other constructor carrying the printed form of the tag. -/
inductive FieldType where
  | string
  | number
  | boolean
  | other (t : String)
  deriving DecidableEq, Repr

/-- A schema field descriptor (BaseField).  pattern models the compiled
regular expression through its test function; customValidator models the
user predicate.  Absent optional properties are none. -/
structure Field where
  type : FieldType
  default : Option Prim := none
  required : Bool := false
  choices : Option (List Prim) := none
  minLength : Option JSNum := none
  maxLength : Option JSNum := none
  pattern : Option (String → Bool) := none
  min : Option JSNum := none
  max : Option JSNum := none
  customValidator : Option (JSValue → Bool) := none

/- ### Line decoder (parseLine, shouldSkipLine, cleanupValue, isQuoted) -/

/-- shouldSkipLine: the line (already trimmed by the caller) is skipped when
it is empty (falsy) or starts with the comment marker. -/
def shouldSkipLine (line : String) : Bool :=
  line == "" || jsStartsWith line "#"

/-- isQuoted: the value both starts and ends with the same kind of quote. -/
def isQuoted (value : String) : Bool :=
  (jsStartsWith value dquoteStr && jsEndsWith value dquoteStr) ||
  (jsStartsWith value squoteStr && jsEndsWith value squoteStr)

/-- slice(1, -1): drop the first and the last character. -/
def sliceInner (value : String) : String :=
  ⟨(value.data.drop 1).dropLast⟩

/-- cleanupValue: remove one layer of surrounding quotes. -/
def cleanupValue (value : String) : String :=
  if isQuoted value then sliceInner value else value

/-- parseLine: trim the line, skip blank and comment lines, split at the
first equals sign, trim the key and the value, and strip quotes from the
value. -/
def parseLine (line : String) : Option (String × String) :=
  let trimmed := jsTrim line
  if shouldSkipLine trimmed then none
  else
    match trimmed.data.findIdx? (fun c => c == '=') with
    | none => none
    | some i =>
        some (jsTrim ⟨trimmed.data.take i⟩,
              cleanupValue (jsTrim ⟨trimmed.data.drop (i + 1)⟩))

/- ### Field coercion and validation (the private methods of TypedEnv) -/

/-- isBooleanValue: the trimmed, lower-cased value is true or false. -/
def isBooleanValue (value : String) : Bool :=
  let lowerValue := jsToLower (jsTrim value)
  lowerValue == "true" || lowerValue == "false"

/-- convertToBoolean: the lower-cased, trimmed value equals true. -/
def convertToBoolean (value : String) : Bool :=
  jsTrim (jsToLower value) == "true"

/-- validateRequiredField: a required field with no default must be present. -/
def validateRequiredField (key : String) (field : Field) (value : Option String) :
    Except EnvError Unit :=
  if value = none ∧ field.required = true ∧ field.default = none then
    Except.error (.missingRequiredField key)
  else pure ()

/-- parseString: pass a present raw value through, else use the default
(undefined when there is none). -/
def parseString (field : Field) (value : Option String) : JSValue :=
  match value with
  | some s => .str s
  | none => (field.default.map Prim.toJS).getD .undefined

/-- parseNumber: Number(value) when present, else the default; throw
InvalidTypeError when the selected value is defined and NaN. -/
def parseNumber (toNum : String → JSNum) (key : String) (field : Field)
    (value : Option String) : Except EnvError JSValue :=
  let numValue : JSValue :=
    match value with
    | some s => .num (toNum s)
    | none => (field.default.map Prim.toJS).getD .undefined
  if numValue ≠ .undefined ∧ jsIsNaN toNum numValue = true then
    Except.error (.invalidType key "number" value)
  else pure numValue

/-- parseBoolean: a truthy raw value that is not a recognised boolean word is
rejected; otherwise a present value is converted and an absent value falls
back to the default (undefined when there is none). -/
def parseBoolean (key : String) (field : Field) (value : Option String) :
    Except EnvError JSValue :=
  match value with
  | some s =>
      if s ≠ "" ∧ isBooleanValue s = false then Except.error (.invalidBoolean key s)
      else pure (.bool (convertToBoolean s))
  | none => pure ((field.default.map Prim.toJS).getD .undefined)

/-- parseAndSetValue: dispatch on the field's declared type; any other tag
reaches the default branch and raises UnsupportedTypeError. -/
def parseAndSetValue (toNum : String → JSNum) (key : String) (field : Field)
    (value : Option String) : Except EnvError JSValue :=
  match field.type with
  | .string => pure (parseString field value)
  | .number => parseNumber toNum key field value
  | .boolean => parseBoolean key field value
  | .other t => Except.error (.unsupportedType t)

/-- validateEnumChoices: when a choices array is declared, look for the first
choice strictly equal to the parsed value with Array.prototype.find, and
throw unless the result of find is truthy (so a found falsy choice is
treated like absence). -/
def validateEnumChoices (key : String) (field : Field) (parsedValue : JSValue) :
    Except EnvError Unit :=
  match field.choices with
  | none => pure ()
  | some cs =>
      match cs.find? (fun choice => jsEq choice.toJS parsedValue) with
      | none => Except.error (.invalidEnum key cs parsedValue)
      | some c =>
          if jsTruthy c.toJS then pure ()
          else Except.error (.invalidEnum key cs parsedValue)

/-- The customValidator step shared by the three constraint validators. -/
def customCheck (key : String) (field : Field) (v : JSValue) :
    Except EnvError Unit :=
  match field.customValidator with
  | some f => if f v then pure () else Except.error (.customValidation key v)
  | none => pure ()

/-- validateStringConstraints: length bounds, then pattern, then the custom
validator.  The length is the character count of the value. -/
def validateStringConstraints (key : String) (field : Field) (value : String) :
    Except EnvError Unit :=
  if ltOpt (.fin value.length) field.minLength then
    Except.error (.invalidStringLength key value field.minLength field.maxLength)
  else if gtOpt (.fin value.length) field.maxLength then
    Except.error (.invalidStringLength key value field.minLength field.maxLength)
  else
    match field.pattern with
    | some test =>
        if test value then customCheck key field (.str value)
        else Except.error (.invalidPattern key value)
    | none => customCheck key field (.str value)

/-- validateNumberConstraints: inclusive range bounds, then the custom
validator. -/
def validateNumberConstraints (key : String) (field : Field) (value : JSNum) :
    Except EnvError Unit :=
  if ltOpt value field.min then
    Except.error (.invalidNumberRange key value field.min field.max)
  else if gtOpt value field.max then
    Except.error (.invalidNumberRange key value field.min field.max)
  else customCheck key field (.num value)

/-- validateBooleanConstraints: only the custom validator. -/
def validateBooleanConstraints (key : String) (field : Field) (value : Bool) :
    Except EnvError Unit :=
  customCheck key field (.bool value)

/-- validateAdvancedConstraints: skipped for undefined values, otherwise
dispatched on the declared type.  The inner matches realise the TypeScript
casts; for a well-typed schema the stored value always has the declared
shape, so the fall-through branches are unreachable. -/
def validateAdvancedConstraints (key : String) (field : Field) (value : JSValue) :
    Except EnvError Unit :=
  match value with
  | .undefined => pure ()
  | v =>
      match field.type with
      | .string =>
          match v with
          | .str s => validateStringConstraints key field s
          | _ => pure ()
      | .number =>
          match v with
          | .num n => validateNumberConstraints key field n
          | _ => pure ()
      | .boolean =>
          match v with
          | .bool b => validateBooleanConstraints key field b
          | _ => pure ()
      | .other _ => pure ()

/- ### The engine state and the parse loop -/

/-- Lookup in an association map modelling a plain JavaScript object; an
absent property reads as undefined (none). -/
def lookupEnv : List (String × α) → String → Option α
  | [], _ => none
  | (k, v) :: rest, key => if k = key then some v else lookupEnv rest key

/-- The parsed environment: an insertion-ordered map from keys to values. -/
abbrev State := List (String × JSValue)

/-- Property assignment on the parsed environment object: replace the value
in place when the key exists, append the key otherwise. -/
def setKey : State → String → JSValue → State
  | [], key, v => [(key, v)]
  | (k, w) :: rest, key, v =>
      if k = key then (k, v) :: rest else (k, w) :: setKey rest key v

/-- Property read returning none for an absent key. -/
def getKey? : State → String → Option JSValue
  | [], _ => none
  | (k, v) :: rest, key => if k = key then some v else getKey? rest key

/-- Property read as JavaScript sees it: an absent key reads as undefined. -/
def getKey (st : State) (key : String) : JSValue :=
  (getKey? st key).getD .undefined

/-- The body of the parse loop for one schema entry: required check, then
coercion and store, then enum check, then type-specific constraints, each
reading the value just stored under the key. -/
def processField (toNum : String → JSNum) (st : State) (key : String)
    (field : Field) (env : List (String × String)) : Except EnvError State := do
  let value := lookupEnv env key
  validateRequiredField key field value
  let v ← parseAndSetValue toNum key field value
  let st1 := setKey st key v
  validateEnumChoices key field (getKey st1 key)
  validateAdvancedConstraints key field (getKey st1 key)
  pure st1

/-- parse: iterate the schema entries in declaration order, threading the
parsed-environment map. -/
def parse (toNum : String → JSNum) (env : List (String × String)) :
    List (String × Field) → State → Except EnvError State
  | [], st => pure st
  | (key, field) :: rest, st => do
      let st1 ← processField toNum st key field env
      parse toNum env rest st1

/-- load: run the whole pass over a fresh parsed environment, as init does
after loading the raw environment. -/
def load (toNum : String → JSNum) (env : List (String × String))
    (schema : List (String × Field)) : Except EnvError State :=
  parse toNum env schema []

/- ### Parts of the repository modelled from the specification

The repository's test suite (src/test/object.test.ts) exercises fields of
kind object, and src/utils/envError.ts declares InvalidJSONError, but the
snapshot of the engine provided under src/ contains no object branch in
parseAndSetValue.  Likewise src/test/inference.test.ts and
src/types/index.ts (ShorthandField, NormalizeField) exercise and type
run-time shorthand schema entries, while the provided parse loop consumes
only full descriptors.  The two definitions below model those missing
pieces from the specification text. -/

/-- Modelled from the spec: the object-kind branch of the field coercer is
missing from the provided sources (only its tests and InvalidJSONError
exist).  Spec 4.4: a present raw value is parsed as JSON; parse failure
raises InvalidJSONError carrying the original parser error text; an absent
value uses the default verbatim (not re-parsed).  The JSON parser itself is
external (JSON.parse), so it is a parameter returning either a parsed value
or the parser error text. -/
def parseObjectField {α : Type} (jsonParse : String → Except String α)
    (key : String) (defaultVal : Option α) (value : Option String) :
    Except EnvError (Option α) :=
  match value with
  | some s =>
      match jsonParse s with
      | .ok j => pure (some j)
      | .error e => Except.error (.invalidJSON key s e)
  | none => pure defaultVal

/-- A pre-normalization schema entry: a full descriptor, a bare literal, or
a required shorthand with optional choices (src/types/index.ts,
ShorthandField). -/
inductive SEntry where
  | field (f : Field)
  | lit (p : Prim)
  | req (choices : Option (List Prim))

/-- The runtime type tag of a primitive literal. -/
def primType : Prim → FieldType
  | .str _ => .string
  | .num _ => .number
  | .bool _ => .boolean

/-- Modelled from the spec: the runtime shorthand normalizer is missing from
the provided sources (only its tests and the type-level NormalizeField
exist).  Spec 4.3: an explicit descriptor passes through; a bare literal of
type T becomes kind T with the literal as default; required-with-choices
infers the kind from the first choice; bare required falls back to the
string kind. -/
def normalizeEntry : SEntry → Field
  | .field f => f
  | .lit p => { type := primType p, default := some p, required := false }
  | .req none => { type := .string, required := true }
  | .req (some cs) =>
      { type := match cs with
                | c :: _ => primType c
                | [] => .other "undefined",
        required := true,
        choices := some cs }

/-- load over a shorthand schema: normalize every entry, then run the
ordinary pass. -/
def loadShorthand (toNum : String → JSNum) (env : List (String × String))
    (schema : List (String × SEntry)) : Except EnvError State :=
  load toNum env (schema.map (fun e => (e.1, normalizeEntry e.2)))

/- ### Claim-side definitions -/

/-- The value transformation claimed by the specification for the line
decoder: strip exactly one layer of quotes when the first and the last
character are the same quote character.  Stated independently of
cleanupValue so that the two can be compared. -/
def specStripQuotes (v : String) : String :=
  match v.data.head?, v.data.getLast? with
  | some a, some b =>
      if (a == b) && (a == '\x22' || a == squote) then
        ⟨(v.data.drop 1).dropLast⟩
      else v
  | _, _ => v

/- ### Derived definitions used by the proofs -/

deriving instance DecidableEq for Except

/-- The keys of the parsed environment, in insertion order. -/
def keys (st : State) : List String := st.map Prod.fst

/-- Apply a list of key-value writes to the parsed environment, left to
right. -/
def applyWrites : List (String × JSValue) → State → State
  | [], st => st
  | (k, v) :: ws, st => applyWrites ws (setKey st k v)

/-- The last value written for a key, if any. -/
def lastWrite : List (String × JSValue) → String → Option JSValue
  | [], _ => none
  | (k1, v) :: ws, k =>
      match lastWrite ws k with
      | some w => some w
      | none => if k1 = k then some v else none

/-- The outcome of processing one schema entry, separated from the state it
is written into: the same checks as processField, applied to the value that
processField stores. -/
def processValue (toNum : String → JSNum) (key : String) (field : Field)
    (env : List (String × String)) : Except EnvError JSValue := do
  let value := lookupEnv env key
  validateRequiredField key field value
  let v ← parseAndSetValue toNum key field value
  validateEnumChoices key field v
  validateAdvancedConstraints key field v
  pure v

/-- The write list a whole pass produces, independent of any state. -/
def schemaWrites (toNum : String → JSNum) (env : List (String × String)) :
    List (String × Field) → Except EnvError (List (String × JSValue))
  | [] => pure []
  | (key, field) :: rest => do
      let v ← processValue toNum key field env
      let ws ← schemaWrites toNum env rest
      pure ((key, v) :: ws)

/- ### Character and string lemmas -/

theorem toNat_ofNat_valid (n : Nat) (h : Char.isValidCharNat n) :
    (Char.ofNat n).toNat = n := by
  rw [Char.ofNat, dif_pos h]
  simp [Char.ofNatAux, Char.toNat, UInt32.ofNat', UInt32.toNat,
    BitVec.toNat_ofNatLt]

theorem char_toNat_inj {a b : Char} (h : a.toNat = b.toNat) : a = b :=
  Char.ext (UInt32.ext h)

theorem beq_char_eq_beq_toNat (a b : Char) : (a == b) = (a.toNat == b.toNat) := by
  by_cases h : a = b
  · subst h; simp
  · have hn : a.toNat ≠ b.toNat := fun hn => h (char_toNat_inj hn)
    simp [h, hn]

/-- Lower-casing a character does not change whether it is whitespace. -/
theorem isWsChar_lowerChar (c : Char) : isWsChar (lowerChar c) = isWsChar c := by
  unfold lowerChar
  split
  case isTrue h =>
    have hv : Char.isValidCharNat (c.toNat + 32) := Or.inl (by omega)
    have ht := toNat_ofNat_valid _ hv
    have h32 : (' ').toNat = 32 := rfl
    have h9 : ('\t').toNat = 9 := rfl
    have h10 : ('\n').toNat = 10 := rfl
    have h13 : ('\r').toNat = 13 := rfl
    have l : isWsChar (Char.ofNat (c.toNat + 32)) = false := by
      simp only [isWsChar, beq_char_eq_beq_toNat, ht, h32, h9, h10, h13]
      simp only [Bool.or_eq_false_iff, beq_eq_false_iff_ne, ne_eq]
      omega
    have r : isWsChar c = false := by
      simp only [isWsChar, beq_char_eq_beq_toNat, h32, h9, h10, h13]
      simp only [Bool.or_eq_false_iff, beq_eq_false_iff_ne, ne_eq]
      omega
    rw [l, r]
  case isFalse h => rfl

theorem dropWhile_map_lower (l : List Char) :
    (l.map lowerChar).dropWhile isWsChar = (l.dropWhile isWsChar).map lowerChar := by
  induction l with
  | nil => rfl
  | cons a t ih =>
      simp only [List.map_cons, List.dropWhile_cons, isWsChar_lowerChar]
      cases h : isWsChar a
      · simp [h]
      · simp [h, ih]

theorem trimChars_map_lower (l : List Char) :
    trimChars (l.map lowerChar) = (trimChars l).map lowerChar := by
  unfold trimChars
  rw [dropWhile_map_lower, ← List.map_reverse, dropWhile_map_lower,
    ← List.map_reverse]

/-- Trimming and lower-casing commute. -/
theorem jsTrim_jsToLower (s : String) :
    jsTrim (jsToLower s) = jsToLower (jsTrim s) := by
  simp only [jsTrim, jsToLower]
  exact congrArg String.mk (trimChars_map_lower s.data)

/- ### State map lemmas -/

theorem getKey?_setKey_self (st : State) (k : String) (v : JSValue) :
    getKey? (setKey st k v) k = some v := by
  induction st with
  | nil => simp [setKey, getKey?]
  | cons a t ih =>
      obtain ⟨k1, w⟩ := a
      by_cases h : k1 = k
      · subst h; simp [setKey, getKey?]
      · simp [setKey, getKey?, h, ih]

theorem getKey?_setKey_ne (st : State) {k k2 : String} (v : JSValue)
    (h : k2 ≠ k) : getKey? (setKey st k v) k2 = getKey? st k2 := by
  induction st with
  | nil =>
      simp only [setKey, getKey?]
      rw [if_neg (fun he => h he.symm)]
  | cons a t ih =>
      obtain ⟨k1, w⟩ := a
      by_cases h1 : k1 = k
      · subst h1
        have hne : ¬ k1 = k2 := fun he => h he.symm
        simp [setKey, getKey?, hne]
      · simp only [setKey, if_neg h1]
        by_cases h2 : k1 = k2
        · simp [getKey?, h2]
        · simp [getKey?, h2, ih]

theorem getKey_setKey_self (st : State) (k : String) (v : JSValue) :
    getKey (setKey st k v) k = v := by
  simp [getKey, getKey?_setKey_self]

theorem keys_setKey (st : State) (k : String) (v : JSValue) :
    keys (setKey st k v) = if k ∈ keys st then keys st else keys st ++ [k] := by
  induction st with
  | nil => simp [setKey, keys]
  | cons a t ih =>
      obtain ⟨k1, w⟩ := a
      by_cases h : k1 = k
      · subst h; simp [setKey, keys]
      · have hne : ¬ k = k1 := fun he => h he.symm
        simp only [setKey, if_neg h, keys, List.map_cons, List.mem_cons]
        by_cases hm : k ∈ keys t
        · simp only [keys] at hm ih
          simp [hm, ih, hne]
        · simp only [keys] at hm ih
          simp [hm, ih, hne]

theorem mem_keys_setKey_self (st : State) (k : String) (v : JSValue) :
    k ∈ keys (setKey st k v) := by
  rw [keys_setKey]
  by_cases h : k ∈ keys st <;> simp [h]

theorem mem_keys_setKey_of_mem (st : State) {k2 : String} (k : String)
    (v : JSValue) (h : k2 ∈ keys st) : k2 ∈ keys (setKey st k v) := by
  rw [keys_setKey]
  by_cases hm : k ∈ keys st <;> simp [hm, h]

theorem nodup_keys_setKey (st : State) (k : String) (v : JSValue)
    (h : (keys st).Nodup) : (keys (setKey st k v)).Nodup := by
  rw [keys_setKey]
  by_cases hm : k ∈ keys st
  · simpa [hm] using h
  · simp only [if_neg hm]
    simpa [List.nodup_append] using ⟨h, hm⟩

theorem getKey?_eq_none_iff (st : State) (k : String) :
    getKey? st k = none ↔ k ∉ keys st := by
  induction st with
  | nil => simp [getKey?, keys]
  | cons a t ih =>
      obtain ⟨k1, w⟩ := a
      rw [show keys ((k1, w) :: t) = k1 :: keys t from rfl, List.mem_cons]
      by_cases h : k1 = k
      · subst h; simp [getKey?]
      · rw [getKey?, if_neg h, ih]
        constructor
        · intro hno hor
          rcases hor with he | hm
          · exact h he.symm
          · exact hno hm
        · intro hno hm
          exact hno (Or.inr hm)

/-- Two parsed environments with the same key order, no duplicate keys and
the same reads are equal. -/
theorem state_ext (st1 : State) : ∀ st2 : State, keys st1 = keys st2 →
    (keys st1).Nodup → (∀ k, getKey? st1 k = getKey? st2 k) → st1 = st2 := by
  induction st1 with
  | nil =>
      intro st2 hk _ _
      cases st2 with
      | nil => rfl
      | cons b t2 => simp [keys] at hk
  | cons a t ih =>
      intro st2 hk hn hg
      cases st2 with
      | nil => simp [keys] at hk
      | cons b t2 =>
          obtain ⟨k, v⟩ := a
          obtain ⟨k2, v2⟩ := b
          simp only [keys, List.map_cons, List.cons.injEq] at hk
          obtain ⟨hk1, hkt⟩ := hk
          subst hk1
          have hval := hg k
          simp only [getKey?, if_pos rfl] at hval
          have hn2 : k ∉ keys t ∧ (keys t).Nodup :=
            List.nodup_cons.mp (show (k :: keys t).Nodup from hn)
          have hnt : (keys t).Nodup := hn2.2
          have hknot : k ∉ keys t := hn2.1
          have tails : ∀ k0, getKey? t k0 = getKey? t2 k0 := by
            intro k0
            by_cases hq : k = k0
            · subst hq
              have e1 : getKey? t k = none := (getKey?_eq_none_iff t k).mpr hknot
              have e2 : getKey? t2 k = none := by
                refine (getKey?_eq_none_iff t2 k).mpr ?_
                rw [show keys t2 = keys t from hkt.symm]
                exact hknot
              rw [e1, e2]
            · have := hg k0
              simpa only [getKey?, if_neg hq] using this
          have hts := ih t2 hkt hnt tails
          have hv : v = v2 := by injection hval
          rw [hv, hts]

/- ### Replaying the same writes -/

theorem getKey?_applyWrites (ws : List (String × JSValue)) :
    ∀ st k, getKey? (applyWrites ws st) k =
      match lastWrite ws k with
      | some w => some w
      | none => getKey? st k := by
  induction ws with
  | nil => intro st k; rfl
  | cons a ws ih =>
      intro st k
      obtain ⟨k1, v⟩ := a
      simp only [applyWrites, lastWrite]
      rw [ih]
      cases hl : lastWrite ws k with
      | some w => rfl
      | none =>
          by_cases h : k1 = k
          · subst h; simp [getKey?_setKey_self]
          · simp [h, getKey?_setKey_ne _ _ (fun he => h he.symm)]

theorem mem_keys_applyWrites_of_mem (ws : List (String × JSValue)) :
    ∀ (st : State) (k : String), k ∈ keys st → k ∈ keys (applyWrites ws st) := by
  induction ws with
  | nil => intro st k h; exact h
  | cons a ws ih =>
      intro st k h
      obtain ⟨k1, v⟩ := a
      exact ih _ _ (mem_keys_setKey_of_mem st k1 v h)

theorem mem_keys_applyWrites_self (ws : List (String × JSValue)) :
    ∀ (st : State) (kv : String × JSValue), kv ∈ ws →
      kv.1 ∈ keys (applyWrites ws st) := by
  induction ws with
  | nil => intro st kv h; cases h
  | cons a ws ih =>
      intro st kv h
      obtain ⟨k1, v⟩ := a
      rcases List.mem_cons.mp h with h1 | h2
      · rw [h1]
        exact mem_keys_applyWrites_of_mem ws _ _ (mem_keys_setKey_self st k1 v)
      · exact ih _ _ h2

theorem keys_applyWrites_of_mem (ws : List (String × JSValue)) :
    ∀ st : State, (∀ kv ∈ ws, kv.1 ∈ keys st) →
      keys (applyWrites ws st) = keys st := by
  induction ws with
  | nil => intro st _; rfl
  | cons a ws ih =>
      intro st h
      obtain ⟨k1, v⟩ := a
      have h1 : k1 ∈ keys st := h (k1, v) (List.mem_cons_self _ _)
      have hset : keys (setKey st k1 v) = keys st := by
        rw [keys_setKey, if_pos h1]
      simp only [applyWrites]
      rw [ih (setKey st k1 v) (fun kv hm => by
        rw [hset]; exact h kv (List.mem_cons_of_mem _ hm)), hset]

theorem nodup_keys_applyWrites (ws : List (String × JSValue)) :
    ∀ st : State, (keys st).Nodup → (keys (applyWrites ws st)).Nodup := by
  induction ws with
  | nil => intro st h; exact h
  | cons a ws ih =>
      intro st h
      obtain ⟨k1, v⟩ := a
      exact ih _ (nodup_keys_setKey st k1 v h)

/-- Replaying the same write list over its own result changes nothing. -/
theorem applyWrites_replay (ws : List (String × JSValue)) (st : State)
    (h : (keys st).Nodup) :
    applyWrites ws (applyWrites ws st) = applyWrites ws st := by
  apply state_ext
  · exact keys_applyWrites_of_mem ws _ (fun kv hm =>
      mem_keys_applyWrites_self ws st kv hm)
  · exact nodup_keys_applyWrites ws _ (nodup_keys_applyWrites ws st h)
  · intro k
    rw [getKey?_applyWrites, getKey?_applyWrites]
    cases hl : lastWrite ws k with
    | some w => rfl
    | none => rfl

/- ### Independence of one field from the incoming state -/

/-- processField only reads the incoming state through the key it has just
written, so it is the write of an outcome that does not depend on the
state. -/
theorem processField_eq (toNum : String → JSNum) (st : State) (key : String)
    (field : Field) (env : List (String × String)) :
    processField toNum st key field env =
      (processValue toNum key field env).map (fun v => setKey st key v) := by
  unfold processField processValue
  cases hr : validateRequiredField key field (lookupEnv env key) with
  | error e => simp [hr, Except.map, Except.bind, Bind.bind, Functor.map]
  | ok u =>
      cases u
      cases hp : parseAndSetValue toNum key field (lookupEnv env key) with
      | error e => simp [hr, hp, Except.map, Except.bind, Bind.bind, Functor.map]
      | ok v =>
          cases he : validateEnumChoices key field v with
          | error e =>
              simp [hr, hp, he, Except.map, Except.bind, Bind.bind,
                Functor.map, getKey_setKey_self]
          | ok u2 =>
              cases u2
              cases ha : validateAdvancedConstraints key field v with
              | error e =>
                  simp [hr, hp, he, ha, Except.map, Except.bind, Bind.bind,
                    Functor.map, getKey_setKey_self]
              | ok u3 =>
                  cases u3
                  simp [hr, hp, he, ha, Except.map, Except.bind, Bind.bind,
                    Functor.map, getKey_setKey_self, pure, Except.pure]

/-- The parse loop is exactly the application of the pass's write list to
the incoming state. -/
theorem parse_eq (toNum : String → JSNum) (env : List (String × String)) :
    ∀ (schema : List (String × Field)) (st : State),
      parse toNum env schema st =
        (schemaWrites toNum env schema).map (fun ws => applyWrites ws st) := by
  intro schema
  induction schema with
  | nil => intro st; rfl
  | cons a rest ih =>
      intro st
      obtain ⟨key, field⟩ := a
      simp only [parse, schemaWrites]
      rw [processField_eq]
      cases hv : processValue toNum key field env with
      | error e =>
          simp [Except.map, Except.bind, Bind.bind, Functor.map, pure,
            Except.pure]
      | ok v =>
          simp only [Except.map, Except.bind, Bind.bind, Functor.map, pure,
            Except.pure]
          rw [ih (setKey st key v)]
          cases hw : schemaWrites toNum env rest with
          | error e => simp [Except.map]
          | ok ws => simp [Except.map, applyWrites]

/- ### Shape of the errors raised after the required-field check -/

theorem except_map_eq_error {ε α β : Type} (f : α → β) (x : Except ε α)
    (e : ε) : x.map f = Except.error e ↔ x = Except.error e := by
  cases x <;> simp [Except.map]

theorem customCheck_ne_missing (key k2 : String) (field : Field) (v : JSValue) :
    customCheck key field v ≠ Except.error (.missingRequiredField k2) := by
  unfold customCheck
  cases field.customValidator with
  | none => simp [pure, Except.pure]
  | some f =>
      dsimp only
      split <;> simp [pure, Except.pure]

theorem parseAndSetValue_ne_missing (toNum : String → JSNum) (key k2 : String)
    (field : Field) (value : Option String) :
    parseAndSetValue toNum key field value ≠
      Except.error (.missingRequiredField k2) := by
  unfold parseAndSetValue parseString parseNumber parseBoolean
  cases field.type with
  | string => simp [pure, Except.pure]
  | number =>
      dsimp only
      split <;> simp [pure, Except.pure]
  | boolean =>
      cases value with
      | some s =>
          dsimp only
          split <;> simp [pure, Except.pure]
      | none => simp [pure, Except.pure]
  | other t => simp

theorem validateEnumChoices_ne_missing (key k2 : String) (field : Field)
    (v : JSValue) :
    validateEnumChoices key field v ≠ Except.error (.missingRequiredField k2) := by
  unfold validateEnumChoices
  cases field.choices with
  | none => simp [pure, Except.pure]
  | some cs =>
      dsimp only
      cases cs.find? (fun choice => jsEq choice.toJS v) with
      | none => simp
      | some c =>
          dsimp only
          split <;> simp [pure, Except.pure]

theorem validateStringConstraints_ne_missing (key k2 : String) (field : Field)
    (s : String) :
    validateStringConstraints key field s ≠
      Except.error (.missingRequiredField k2) := by
  unfold validateStringConstraints
  split
  · simp
  · split
    · simp
    · cases field.pattern with
      | none => exact customCheck_ne_missing key k2 field (.str s)
      | some test =>
          dsimp only
          split
          · exact customCheck_ne_missing key k2 field (.str s)
          · simp

theorem validateNumberConstraints_ne_missing (key k2 : String) (field : Field)
    (n : JSNum) :
    validateNumberConstraints key field n ≠
      Except.error (.missingRequiredField k2) := by
  unfold validateNumberConstraints
  split
  · simp
  · split
    · simp
    · exact customCheck_ne_missing key k2 field (.num n)

theorem validateAdvancedConstraints_ne_missing (key k2 : String)
    (field : Field) (v : JSValue) :
    validateAdvancedConstraints key field v ≠
      Except.error (.missingRequiredField k2) := by
  unfold validateAdvancedConstraints validateBooleanConstraints
  cases v with
  | undefined => simp [pure, Except.pure]
  | str s =>
      cases field.type with
      | string => exact validateStringConstraints_ne_missing key k2 field s
      | number => simp [pure, Except.pure]
      | boolean => simp [pure, Except.pure]
      | other t => simp [pure, Except.pure]
  | num n =>
      cases field.type with
      | string => simp [pure, Except.pure]
      | number => exact validateNumberConstraints_ne_missing key k2 field n
      | boolean => simp [pure, Except.pure]
      | other t => simp [pure, Except.pure]
  | bool b =>
      cases field.type with
      | string => simp [pure, Except.pure]
      | number => simp [pure, Except.pure]
      | boolean => exact customCheck_ne_missing key k2 field (.bool b)
      | other t => simp [pure, Except.pure]

/- ### Claims -/

/-- C10: for a boolean field, a present raw value equal to the empty string
is not rejected: the empty string is falsy, so the InvalidBooleanError guard
is skipped, and the stored value is convertToBoolean of the empty string,
which is false, whatever default the field declares. -/
theorem spec_c10 (key : String) (field : Field) :
    parseBoolean key field (some "") = Except.ok (JSValue.bool false) := rfl

/-- C8: processing one field raises MissingRequiredFieldError exactly when
the raw value is absent, the field is required and no default is declared;
since the required check runs first, the error is raised before the coercer
and the later validators, and an absent field with a default is never
reported missing. -/
theorem spec_c8 (toNum : String → JSNum) (st : State) (key : String)
    (field : Field) (env : List (String × String)) :
    processField toNum st key field env =
        Except.error (EnvError.missingRequiredField key) ↔
      lookupEnv env key = none ∧ field.required = true ∧
        field.default = none := by
  rw [processField_eq, except_map_eq_error]
  constructor
  · intro h
    by_cases hc : lookupEnv env key = none ∧ field.required = true ∧
        field.default = none
    · exact hc
    · exfalso
      have hr : validateRequiredField key field (lookupEnv env key) =
          Except.ok () := by
        unfold validateRequiredField
        rw [if_neg hc]
        rfl
      unfold processValue at h
      simp only [hr, Except.bind, Bind.bind] at h
      cases hp : parseAndSetValue toNum key field (lookupEnv env key) with
      | error e =>
          rw [hp] at h
          simp only [] at h
          have he : e = EnvError.missingRequiredField key := by
            injection h
          rw [he] at hp
          exact parseAndSetValue_ne_missing toNum key key field _ hp
      | ok v =>
          rw [hp] at h
          simp only [] at h
          cases hen : validateEnumChoices key field v with
          | error e =>
              rw [hen] at h
              simp only [] at h
              have he : e = EnvError.missingRequiredField key := by
                injection h
              rw [he] at hen
              exact validateEnumChoices_ne_missing key key field v hen
          | ok u =>
              cases u
              rw [hen] at h
              simp only [] at h
              cases ha : validateAdvancedConstraints key field v with
              | error e =>
                  rw [ha] at h
                  simp only [] at h
                  have he : e = EnvError.missingRequiredField key := by
                    injection h
                  rw [he] at ha
                  exact validateAdvancedConstraints_ne_missing key key field v ha
              | ok u2 =>
                  cases u2
                  rw [ha] at h
                  simp [pure, Except.pure] at h
  · rintro ⟨h1, h2, h3⟩
    have hr : validateRequiredField key field (lookupEnv env key) =
        Except.error (.missingRequiredField key) := by
      unfold validateRequiredField
      rw [if_pos ⟨h1, h2, h3⟩]
    unfold processValue
    simp [hr, Except.bind, Bind.bind]

/-- No choice is strictly equal to undefined: the choices array holds only
primitive values. -/
theorem jsEq_toJS_undef (p : Prim) : jsEq p.toJS JSValue.undefined = false := by
  cases p with
  | str s => rfl
  | bool b => rfl
  | num n => cases n <;> rfl

/-- C1, counterexample: a string field that is optional, has no default and
declares the non-empty choices list [a], processed with an empty raw map,
raises InvalidEnumError (with received value undefined) although the claim
says the enum check is skipped. -/
theorem spec_c1_cex :
    load (fun _ => JSNum.nan) []
        [("K", { type := FieldType.string, choices := some [Prim.str "a"] })] =
      Except.error (EnvError.invalidEnum "K" [Prim.str "a"] JSValue.undefined) := by
  decide

/-- C1, amended: for a field with a (non-empty) choices list that is
optional, absent from the raw map and without default, the enum membership
check is not skipped: the coerced value is undefined, Array.prototype.find
finds no strictly-equal choice, and InvalidEnumError is raised with the
received value undefined. -/
theorem spec_c1_amended (toNum : String → JSNum) (st : State) (key : String)
    (field : Field) (env : List (String × String)) (cs : List Prim)
    (hch : field.choices = some cs) (hne : cs ≠ [])
    (habs : lookupEnv env key = none) (hreq : field.required = false)
    (hdef : field.default = none)
    (htype : field.type = FieldType.string ∨ field.type = FieldType.number ∨
      field.type = FieldType.boolean) :
    processField toNum st key field env =
      Except.error (EnvError.invalidEnum key cs JSValue.undefined) := by
  rw [processField_eq]
  have hr : validateRequiredField key field (lookupEnv env key) =
      Except.ok () := by
    unfold validateRequiredField
    rw [if_neg]
    · rfl
    · rintro ⟨-, hreq2, -⟩
      rw [hreq] at hreq2
      cases hreq2
  have hp : parseAndSetValue toNum key field (lookupEnv env key) =
      Except.ok JSValue.undefined := by
    unfold parseAndSetValue
    rw [habs]
    rcases htype with h | h | h <;> rw [h]
    · simp [parseString, hdef, pure, Except.pure]
    · simp [parseNumber, hdef, pure, Except.pure, jsIsNaN]
    · simp [parseBoolean, hdef, pure, Except.pure]
  have hen : validateEnumChoices key field JSValue.undefined =
      Except.error (.invalidEnum key cs JSValue.undefined) := by
    unfold validateEnumChoices
    rw [hch]
    dsimp only
    have hf : cs.find? (fun choice => jsEq choice.toJS JSValue.undefined) = none := by
      rw [List.find?_eq_none]
      intro p hp2
      simp [jsEq_toJS_undef]
    rw [hf]
  unfold processValue
  simp [hr, hp, hen, Except.bind, Bind.bind, Except.map]

/-- C1, witness for the amended statement at a concrete input. -/
theorem spec_c1_witness :
    processField (fun _ => JSNum.nan) [] "W1"
        { type := FieldType.string, choices := some [Prim.str "x"] } [] =
      Except.error (EnvError.invalidEnum "W1" [Prim.str "x"] JSValue.undefined) :=
  spec_c1_amended (fun _ => JSNum.nan) [] "W1" _ [] [Prim.str "x"]
    rfl (by decide) rfl rfl rfl (Or.inl rfl)

/-- C2: when a declared choices list is tested against a coerced value and
Array.prototype.find returns a falsy element (false, zero or the empty
string), the engine treats the found choice like absence and raises
InvalidEnumError even though the value is a listed choice. -/
theorem spec_c2 (toNum : String → JSNum) (st : State) (key : String)
    (field : Field) (env : List (String × String)) (s : String) (v : JSValue)
    (cs : List Prim) (c : Prim)
    (hlook : lookupEnv env key = some s)
    (hp : parseAndSetValue toNum key field (some s) = Except.ok v)
    (hch : field.choices = some cs)
    (hf : cs.find? (fun choice => jsEq choice.toJS v) = some c)
    (ht : jsTruthy c.toJS = false) :
    processField toNum st key field env =
      Except.error (EnvError.invalidEnum key cs v) := by
  rw [processField_eq]
  have hr : validateRequiredField key field (some s) = Except.ok () := by
    unfold validateRequiredField
    rw [if_neg]
    · rfl
    · rintro ⟨habs, -, -⟩
      cases habs
  have hen : validateEnumChoices key field v =
      Except.error (.invalidEnum key cs v) := by
    unfold validateEnumChoices
    rw [hch]
    dsimp only
    rw [hf]
    dsimp only
    simp [ht]
  unfold processValue
  rw [hlook]
  simp [hr, hp, hen, Except.bind, Bind.bind, Except.map]

/-- C2, witness: a boolean field with choices [true, false] and raw value
false raises InvalidEnumError although false is a listed choice. -/
theorem spec_c2_witness :
    processField (fun _ => JSNum.nan) [] "B"
        { type := FieldType.boolean, required := true,
          choices := some [Prim.bool true, Prim.bool false] }
        [("B", "false")] =
      Except.error (EnvError.invalidEnum "B" [Prim.bool true, Prim.bool false]
        (JSValue.bool false)) :=
  spec_c2 (fun _ => JSNum.nan) [] "B" _ _ "false" (JSValue.bool false)
    [Prim.bool true, Prim.bool false] (Prim.bool false)
    (by decide) (by decide) rfl (by decide) (by decide)

/-- C6, counterexample: a number field whose default is NaN and whose raw
value is absent raises InvalidTypeError, although the claim says an absent
value never raises because the default is trusted. -/
theorem spec_c6_cex :
    parseNumber (fun _ => JSNum.nan) "K"
        { type := FieldType.number, default := some (Prim.num JSNum.nan) }
        none =
      Except.error (EnvError.invalidType "K" "number" none) := by
  decide

/-- C6, amended: for a number field, a present raw value raises
InvalidTypeError exactly when its numeric conversion is NaN; but the
declared default is NaN-checked as well, so an absent raw value with a NaN
default also raises InvalidTypeError. -/
theorem spec_c6_amended (toNum : String → JSNum) (key : String)
    (field : Field) :
    (∀ s : String,
      parseNumber toNum key field (some s) =
          Except.error (EnvError.invalidType key "number" (some s)) ↔
        toNum s = JSNum.nan)
    ∧ (field.default = some (Prim.num JSNum.nan) →
        parseNumber toNum key field none =
          Except.error (EnvError.invalidType key "number" none)) := by
  constructor
  · intro s
    unfold parseNumber
    dsimp only
    by_cases h : toNum s = JSNum.nan
    · rw [if_pos ⟨by simp, by simp [jsIsNaN, h]⟩]
      simp [h]
    · have hcond : ¬(JSValue.num (toNum s) ≠ JSValue.undefined ∧
          jsIsNaN toNum (JSValue.num (toNum s)) = true) := by
        rintro ⟨-, hnan⟩
        simp [jsIsNaN] at hnan
        exact h hnan
      rw [if_neg hcond]
      simp [pure, Except.pure, h]
  · intro hd
    unfold parseNumber
    rw [hd]
    simp [jsIsNaN, Prim.toJS]

/-- C6, witness for the amended statement at a concrete input. -/
theorem spec_c6_witness :
    parseNumber (fun _ => JSNum.nan) "K2"
        { type := FieldType.number, default := some (Prim.num JSNum.nan) }
        none =
      Except.error (EnvError.invalidType "K2" "number" none) :=
  (spec_c6_amended (fun _ => JSNum.nan) "K2" _).2 rfl

/-- C5, counterexample: the raw value true-with-a-trailing-space does not
case-insensitively equal true or false, yet parseBoolean does not raise
InvalidBooleanError: both boolean helpers trim the value first, so it is
accepted and stored as true. -/
theorem spec_c5_cex :
    (jsToLower "true " ≠ "true" ∧ jsToLower "true " ≠ "false") ∧
    parseBoolean "B" { type := FieldType.boolean } (some "true ") =
      Except.ok (JSValue.bool true) := by
  decide

/-- C5, amended: for a boolean field, a present raw value whose trimmed form
case-insensitively equals true (respectively false) is accepted and stored
as true (respectively false); every other non-empty present raw value
raises InvalidBooleanError. -/
theorem spec_c5_amended (key : String) (field : Field) (s : String) :
    (jsToLower (jsTrim s) = "true" →
      parseBoolean key field (some s) = Except.ok (JSValue.bool true))
    ∧ (jsToLower (jsTrim s) = "false" →
      parseBoolean key field (some s) = Except.ok (JSValue.bool false))
    ∧ (s ≠ "" → jsToLower (jsTrim s) ≠ "true" →
        jsToLower (jsTrim s) ≠ "false" →
      parseBoolean key field (some s) =
        Except.error (EnvError.invalidBoolean key s)) := by
  refine ⟨?_, ?_, ?_⟩
  · intro h
    have hb : isBooleanValue s = true := by
      simp [isBooleanValue, h]
    unfold parseBoolean
    dsimp only
    rw [if_neg]
    · have hc : convertToBoolean s = true := by
        unfold convertToBoolean
        rw [jsTrim_jsToLower, h]
        decide
      rw [hc]
      rfl
    · rintro ⟨-, hfalse⟩
      rw [hb] at hfalse
      cases hfalse
  · intro h
    have hb : isBooleanValue s = true := by
      simp [isBooleanValue, h]
    unfold parseBoolean
    dsimp only
    rw [if_neg]
    · have hc : convertToBoolean s = false := by
        unfold convertToBoolean
        rw [jsTrim_jsToLower, h]
        decide
      rw [hc]
      rfl
    · rintro ⟨-, hfalse⟩
      rw [hb] at hfalse
      cases hfalse
  · intro hne h1 h2
    have hb : isBooleanValue s = false := by
      simp only [isBooleanValue, Bool.or_eq_false_iff, beq_eq_false_iff_ne,
        ne_eq]
      exact ⟨h1, h2⟩
    unfold parseBoolean
    dsimp only
    rw [if_pos ⟨hne, hb⟩]

/-- C5, witness for the amended statement at concrete inputs: the uppercase
word TRUE parses to true, and a non-boolean word raises
InvalidBooleanError. -/
theorem spec_c5_witness :
    parseBoolean "K" { type := FieldType.boolean } (some "TRUE") =
        Except.ok (JSValue.bool true) ∧
      parseBoolean "K" { type := FieldType.boolean } (some "off") =
        Except.error (EnvError.invalidBoolean "K" "off") :=
  ⟨(spec_c5_amended "K" { type := FieldType.boolean } "TRUE").1 (by decide),
   (spec_c5_amended "K" { type := FieldType.boolean } "off").2.2
     (by decide) (by decide) (by decide)⟩

/-- C7: the pass is a pure function of the raw map and the schema, so two
identical load calls agree definitionally; moreover re-running the full
pass over the parsed environment left by a completed pass (as a second init
does on the same instance) completes without error and reproduces the same
result map, because every schema key is rewritten with the same value
before it is read. -/
theorem spec_c7 (toNum : String → JSNum) (env : List (String × String))
    (schema : List (String × Field)) (st1 : State)
    (h : load toNum env schema = Except.ok st1) :
    parse toNum env schema st1 = Except.ok st1 := by
  unfold load at h
  rw [parse_eq] at h ⊢
  cases hw : schemaWrites toNum env schema with
  | error e =>
      rw [hw] at h
      simp [Except.map] at h
  | ok ws =>
      rw [hw] at h
      simp only [Except.map] at h ⊢
      have h2 : applyWrites ws [] = st1 := by injection h
      rw [← h2, applyWrites_replay ws [] (by simp [keys])]

/-- C7, witness at a concrete input. -/
theorem spec_c7_witness :
    parse (fun _ => JSNum.nan) [("A", "x")]
        [("A", { type := FieldType.string })] [("A", JSValue.str "x")] =
      Except.ok [("A", JSValue.str "x")] :=
  spec_c7 (fun _ => JSNum.nan) [("A", "x")]
    [("A", { type := FieldType.string })] [("A", JSValue.str "x")] (by decide)

/-- C3: for an object-kind field (modelled from the spec), a present raw
value is parsed as JSON and the parsed value is stored; a parse failure
raises InvalidJSONError carrying the original parser error text; an absent
value returns the default verbatim, whatever it is, without consulting the
parser. -/
theorem spec_c3 (α : Type) (jsonParse : String → Except String α)
    (key : String) (d : Option α) (s : String) :
    (∀ j, jsonParse s = Except.ok j →
      parseObjectField jsonParse key d (some s) = Except.ok (some j))
    ∧ (∀ e, jsonParse s = Except.error e →
      parseObjectField jsonParse key d (some s) =
        Except.error (EnvError.invalidJSON key s e))
    ∧ parseObjectField jsonParse key d none = Except.ok d := by
  refine ⟨?_, ?_, rfl⟩
  · intro j h
    unfold parseObjectField
    dsimp only
    simp [h, pure, Except.pure]
  · intro e h
    unfold parseObjectField
    dsimp only
    simp [h]

/-- C3, witness at a concrete parser: success stores the parsed value,
failure carries the parser text, absence returns the default. -/
theorem spec_c3_witness :
    parseObjectField
        (fun t => if t = "1" then Except.ok 1 else Except.error "bad")
        "CFG" (some 7) (some "1") = Except.ok (some 1) ∧
      parseObjectField
        (fun t => if t = "1" then Except.ok 1 else Except.error "bad")
        "CFG" (some 7) (some "\x7b") =
        Except.error (EnvError.invalidJSON "CFG" "\x7b" "bad") ∧
      parseObjectField
        (fun t => if t = "1" then Except.ok (1 : Nat) else Except.error "bad")
        "CFG" (some 7) none = Except.ok (some 7) :=
  ⟨(spec_c3 Nat (fun t => if t = "1" then Except.ok 1 else Except.error "bad")
      "CFG" (some 7) "1").1 1 (by decide),
   (spec_c3 Nat (fun t => if t = "1" then Except.ok 1 else Except.error "bad")
      "CFG" (some 7) "\x7b").2.1 "bad" (by decide),
   (spec_c3 Nat (fun t => if t = "1" then Except.ok 1 else Except.error "bad")
      "CFG" (some 7) "x").2.2⟩

/- ### Line decoder lemmas for C9 -/

/-- findIdx? on a list split at the first position satisfying the predicate
returns exactly that position. -/
theorem findIdxAppend (p : Char → Bool) (pre : List Char) :
    ∀ (post : List Char) (c : Char), p c = true → (∀ x ∈ pre, p x = false) →
      (pre ++ c :: post).findIdx? p = some pre.length := by
  induction pre with
  | nil =>
      intro post c hc _
      simp [hc]
  | cons a t ih =>
      intro post c hc hall
      have ha : p a = false := hall a (List.mem_cons_self _ _)
      simp only [List.cons_append, List.findIdx?_cons, ha, Bool.false_eq_true,
        if_false, List.findIdx?_succ]
      rw [ih post c hc (fun x hx => hall x (List.mem_cons_of_mem _ hx))]
      simp

/-- A one-element list is a prefix exactly when the head matches. -/
theorem isPrefixOf_singleton (q : Char) (l : List Char) :
    [q].isPrefixOf l = match l.head? with
      | some b => q == b
      | none => false := by
  cases l <;> simp [List.isPrefixOf]

/-- A one-element list is a suffix exactly when the last element matches. -/
theorem isSuffixOf_singleton (q : Char) (l : List Char) :
    [q].isSuffixOf l = match l.getLast? with
      | some b => q == b
      | none => false := by
  rw [List.isSuffixOf]
  have h1 : ([q] : List Char).reverse = [q] := by simp
  rw [h1, isPrefixOf_singleton, List.head?_reverse]

/-- The quoting test of the engine (each quote compared against both ends)
agrees with the test of the specification (equal ends, and the first
character is a quote). -/
theorem quoteCondComm (q1 q2 c g : Char) :
    (((q1 == c) && (q1 == g)) || ((q2 == c) && (q2 == g))) =
      ((c == g) && ((c == q1) || (c == q2))) := by
  rw [Bool.eq_iff_iff]
  simp only [Bool.or_eq_true, Bool.and_eq_true, beq_iff_eq]
  constructor
  · rintro (⟨h1, h2⟩ | ⟨h1, h2⟩)
    · exact ⟨h1 ▸ h2, Or.inl h1.symm⟩
    · exact ⟨h1 ▸ h2, Or.inr h1.symm⟩
  · rintro ⟨hcb, (h | h)⟩
    · exact Or.inl ⟨h.symm, h ▸ hcb⟩
    · exact Or.inr ⟨h.symm, h ▸ hcb⟩

/-- The engine's cleanupValue agrees everywhere with the transformation the
specification describes: strip the outer characters exactly when the first
and the last character are the same quote character. -/
theorem cleanupValue_eq_specStrip (v : String) :
    cleanupValue v = specStripQuotes v := by
  unfold cleanupValue specStripQuotes isQuoted jsStartsWith jsEndsWith
    sliceInner dquoteStr squoteStr
  cases hl : v.data with
  | nil => simp [List.isPrefixOf, List.isSuffixOf]
  | cons c t =>
      have hb : (c :: t).getLast? = some ((c :: t).getLast (by simp)) :=
        List.getLast?_eq_getLast_of_ne_nil (by simp)
      rw [isPrefixOf_singleton, isPrefixOf_singleton, isSuffixOf_singleton,
        isSuffixOf_singleton, hb, List.head?_cons]
      rw [quoteCondComm]

/-- C9: the line decoder returns none exactly when the trimmed line is
empty, starts with the comment marker, or contains no equals sign; and on a
line whose trimmed form splits as pre, first equals sign, post, it returns
the trimmed pre as key, and the trimmed post with one layer of matching
quotes stripped (per the specification's description) as value. -/
theorem spec_c9 (line : String) :
    (parseLine line = none ↔
      (jsTrim line = "" ∨ jsStartsWith (jsTrim line) "#" = true ∨
        ('=' ∉ (jsTrim line).data)))
    ∧ (∀ pre post : List Char,
        (jsTrim line).data = pre ++ '=' :: post →
        ('=' ∉ pre) →
        jsStartsWith (jsTrim line) "#" = false →
        parseLine line =
          some (jsTrim ⟨pre⟩, specStripQuotes (jsTrim ⟨post⟩))) := by
  constructor
  · unfold parseLine
    by_cases hskip : shouldSkipLine (jsTrim line) = true
    · rw [if_pos hskip]
      unfold shouldSkipLine at hskip
      refine iff_of_true rfl ?_
      have hor : (jsTrim line == "") = true ∨
          jsStartsWith (jsTrim line) "#" = true := by
        simpa using hskip
      rcases hor with h | h
      · exact Or.inl (beq_iff_eq.mp h)
      · exact Or.inr (Or.inl h)
    · rw [if_neg hskip]
      have hnot : ¬(jsTrim line = "" ∨ jsStartsWith (jsTrim line) "#" = true) := by
        rintro (h | h)
        · apply hskip
          unfold shouldSkipLine
          rw [h]
          simp
        · apply hskip
          unfold shouldSkipLine
          rw [h]
          simp
      cases hf : (jsTrim line).data.findIdx? (fun c => c == '=') with
      | none =>
          refine iff_of_true rfl (Or.inr (Or.inr ?_))
          intro hmem
          have hcon := List.findIdx?_eq_none_iff.mp hf '=' hmem
          simp at hcon
      | some i =>
          refine iff_of_false (by simp) ?_
          rintro (h | h | h)
          · exact hnot (Or.inl h)
          · exact hnot (Or.inr h)
          · have hnone : (jsTrim line).data.findIdx? (fun c => c == '=') =
                none := by
              refine List.findIdx?_eq_none_iff.mpr (fun x hx => ?_)
              refine beq_eq_false_iff_ne.mpr ?_
              intro he
              exact h (he ▸ hx)
            rw [hnone] at hf
            cases hf
  · intro pre post hdata hpre hhash
    have hne2 : jsTrim line ≠ "" := by
      intro he
      rw [he] at hdata
      have hd0 : ("" : String).data = [] := rfl
      rw [hd0] at hdata
      cases pre <;> simp at hdata
    have hskip : shouldSkipLine (jsTrim line) = false := by
      unfold shouldSkipLine
      rw [hhash]
      simp [hne2]
    unfold parseLine
    rw [if_neg (by rw [hskip]; exact Bool.false_ne_true)]
    have hfi : (jsTrim line).data.findIdx? (fun c => c == '=') =
        some pre.length := by
      rw [hdata]
      refine findIdxAppend _ pre post '=' (by decide) (fun x hx => ?_)
      refine beq_eq_false_iff_ne.mpr ?_
      intro he
      exact hpre (he ▸ hx)
    rw [hfi]
    dsimp only
    rw [hdata, List.take_left]
    have hdrop : (pre ++ '=' :: post).drop (pre.length + 1) = post := by
      have h2 : pre ++ '=' :: post = (pre ++ ['=']) ++ post := by simp
      rw [h2]
      exact List.drop_left' (by simp)
    rw [hdrop, cleanupValue_eq_specStrip]

/-- C9, witness: a concrete line with surrounding blanks and a quoted value
decodes to the trimmed key and the unquoted value. -/
theorem spec_c9_witness :
    parseLine " K = \x22v\x22 " = some ("K", "v") := by
  have h := (spec_c9 " K = \x22v\x22 ").2 ['K', ' ']
    [' ', '\x22', 'v', '\x22'] (by decide) (by decide) (by decide)
  rw [h]
  decide

/-- C4: a bare literal schema entry of primitive type T normalizes (per the
spec-modelled normalizer) to a descriptor of kind T with the literal as
default, and the shorthand scenario of the spec evaluates as claimed:
HOST and PORT take their literal defaults, NAME is required and supplied. -/
theorem spec_c4 :
    (∀ p : Prim, (normalizeEntry (SEntry.lit p)).type = primType p ∧
      (normalizeEntry (SEntry.lit p)).default = some p) ∧
    ∀ toNum : String → JSNum,
      loadShorthand toNum [("NAME", "svc")]
          [("HOST", SEntry.lit (Prim.str "localhost")),
           ("PORT", SEntry.lit (Prim.num (JSNum.fin 3000))),
           ("NAME", SEntry.req none)] =
        Except.ok [("HOST", JSValue.str "localhost"),
                   ("PORT", JSValue.num (JSNum.fin 3000)),
                   ("NAME", JSValue.str "svc")] :=
  ⟨fun p => ⟨rfl, rfl⟩, fun toNum => rfl⟩

end TypedEnv
